import Mathlib

/-
Verification of the log-to-csv event-extraction and cycle-aggregation engine
(GenericLogProcessor in "General Log Processor/main processsor.py").

Shallow embedding notes:
- Timestamps (Python datetime values) are modelled as rational numbers of
  seconds; datetime subtraction followed by total_seconds() is rational
  subtraction.  Python floats are idealized as rationals plus an explicit
  NaN marker (PyFloat); round(x, n) is round-half-even at n decimal digits,
  which is the Python semantics of round on floats (idealized over exact
  rationals; no claim here depends on binary-float rounding artifacts).
- Python dicts are modelled as association lists with dict update semantics
  (dset updates an existing key in place, otherwise appends), matching
  insertion-order iteration of Python 3.7+ dicts.
- Library calls of the Python runtime that are not code of this repository
  are abstracted as function parameters of the configuration: re.search of a
  field pattern is a function String -> Option String (the stripped group(1)
  on success), datetime.strptime with one format is String -> Option Q,
  float() on strings is String -> Option PyFloat, and strftime of the fixed
  StartTime format is Q -> String.  Concrete instances used by witnesses
  model those builtins on exactly the literals involved.
- Events are modelled as a structure with the fixed keys time/file/type plus
  the extracted-field dict; configured field names are assumed distinct from
  the three reserved keys (a configuration naming a field "time", "file" or
  "type" would corrupt the Python event dict and is outside every claim).
-/

namespace LogToCsv

/-! ## Python dict model -/

/-- Lookup in a Python-dict association list (first binding wins; bindings
are unique by construction through dset). -/
def dget {α : Type} (d : List (String × α)) (k : String) : Option α :=
  (d.find? (fun kv => kv.1 == k)).map (fun kv => kv.2)

/-- Python dict assignment d[k] = v: update the existing binding in place,
otherwise append a new binding (insertion order preserved). -/
def dset {α : Type} (d : List (String × α)) (k : String) (v : α) : List (String × α) :=
  if (d.find? (fun kv => kv.1 == k)).isSome then
    d.map (fun kv => if kv.1 == k then (k, v) else kv)
  else d ++ [(k, v)]

/-- Build a Python dict from a list of bindings (later bindings overwrite). -/
def pyDict {α : Type} (l : List (String × α)) : List (String × α) :=
  l.foldl (fun d kv => dset d kv.1 kv.2) []

/-! ## Python float model -/

/-- A Python float value as produced by this program: a finite value
(idealized as a rational) or NaN.  Infinities do not arise in any claim. -/
inductive PyFloat where
  | fin (q : ℚ)
  | nan
deriving DecidableEq, Repr

/-- Round-half-even to an integer, the rounding used by Python round(). -/
def rhe (q : ℚ) : ℤ :=
  let f := ⌊q⌋
  let r := q - (f : ℚ)
  if r < 1/2 then f
  else if 1/2 < r then f + 1
  else if Even f then f else f + 1

/-- Python round(x, 2) on an exact value. -/
def round2 (q : ℚ) : ℚ := (rhe (q * 100) : ℚ) / 100

/-- Python round(x, 3) on an exact value. -/
def round3 (q : ℚ) : ℚ := (rhe (q * 1000) : ℚ) / 1000

/-- Addition of Python floats: NaN propagates. -/
def PyFloat.add : PyFloat → PyFloat → PyFloat
  | PyFloat.fin a, PyFloat.fin b => PyFloat.fin (a + b)
  | _, _ => PyFloat.nan

/-- Python sum(values) over a list of floats (starts from 0). -/
def PyFloat.sumL (l : List PyFloat) : PyFloat :=
  l.foldl PyFloat.add (PyFloat.fin 0)

/-- Division of a Python float by a positive count (len(values) is never 0
at the call site in build_record). -/
def PyFloat.divN : PyFloat → ℕ → PyFloat
  | PyFloat.fin a, n => PyFloat.fin (a / (n : ℚ))
  | PyFloat.nan, _ => PyFloat.nan

/-- Python round(x, 2) lifted to floats; round(nan, 2) is nan. -/
def PyFloat.round2f : PyFloat → PyFloat
  | PyFloat.fin a => PyFloat.fin (round2 a)
  | PyFloat.nan => PyFloat.nan

/-! ## Events, cycles, records, configuration -/

/-- One extracted event: the dict built by parse_line.  The three fixed keys
time/file/type are structure fields; the pattern-extracted fields are the
remaining dict. -/
structure Event where
  time : ℚ
  file : String
  type : String
  fields : List (String × String)
deriving DecidableEq, Repr

/-- The value stored in a cycle dict for one stage: None, a single event
(non-repeating stages), or a list (the repeating stage). -/
inductive Slot where
  | null
  | one (e : Event)
  | many (es : List Event)
deriving DecidableEq, Repr

/-- An in-progress or finalized cycle: the dict keyed by stage name. -/
abbrev Cycle := List (String × Slot)

/-- A value of a finalized record: string, float, int (frames), or None. -/
inductive RValue where
  | str (s : String)
  | float (x : PyFloat)
  | int (n : ℤ)
  | null
deriving DecidableEq, Repr

/-- A finalized CSV record: the dict built by build_record. -/
abbrev Record := List (String × RValue)

/-- The configuration slice used by the core, with the Python-runtime
helpers it calls abstracted as functions (see the header comment). -/
structure Config where
  seq : List String
  patterns : String → List (String × (String → Option String))
  tsFormats : List (String → Option ℚ)
  floatConv : String → Option PyFloat
  strf : ℚ → String

/-- The field names configured for a stage: the keys of
PATTERN_CONFIG[stage] in insertion order. -/
def pcFields (cfg : Config) (stage : String) : List String :=
  (cfg.patterns stage).map (fun fp => fp.1)

/-- The repeating stage name seq[-1] (analyze_events and build_record are
only reached with a non-empty sequence; the default is irrelevant there). -/
def lastName (seq : List String) : String := seq.getLastD ""

/-! ## TimestampParser (extract_timestamp) -/

/-- Characters before the first right bracket, or none when no right bracket
follows. -/
def takeToRB : List Char → Option (List Char)
  | [] => none
  | c :: rest => if c = ']' then some [] else (takeToRB rest).map (fun l => c :: l)

/-- Leftmost match of the regex that extracts a bracketed substring with a
non-empty body: at each left bracket take the characters up to the next
right bracket; an empty body or a missing right bracket makes the engine
retry from the next position, modelled by recursing on the tail. -/
def bracketContent : List Char → Option (List Char)
  | [] => none
  | c :: rest =>
      if c = '[' then
        match takeToRB rest with
        | some content => if content = [] then bracketContent rest else some content
        | none => bracketContent rest
      else bracketContent rest

/-- Try the configured timestamp formats left to right; first success wins.
Each format is the abstracted datetime.strptime with that format string. -/
def tryFormats : List (String → Option ℚ) → String → Option ℚ
  | [], _ => none
  | f :: fs, s =>
      match f s with
      | some t => some t
      | none => tryFormats fs s

/-- extract_timestamp: first bracketed substring, then format fallback. -/
def extractTimestamp (fmts : List (String → Option ℚ)) (line : String) : Option ℚ :=
  match bracketContent line.data with
  | none => none
  | some cs => tryFormats fmts (String.mk cs)

/-! ## EventExtractor (parse_line) -/

/-- The field-to-value pairs of the patterns of one event type that match
the line, in pattern declaration order (each pattern abstracts re.search
plus group(1).strip()). -/
def matchFields (pats : List (String × (String → Option String))) (line : String) :
    List (String × String) :=
  pats.filterMap (fun fp => (fp.2 line).map (fun v => (fp.1, v)))

/-- Scan the event sequence in declared order for the first event type with
at least one matching field pattern. -/
def findEventType (pats : String → List (String × (String → Option String)))
    (line : String) (ts : ℚ) (file : String) : List String → Option Event
  | [] => none
  | evt :: rest =>
      if matchFields (pats evt) line = [] then findEventType pats line ts file rest
      else some ⟨ts, file, evt, pyDict (matchFields (pats evt) line)⟩

/-- parse_line: no timestamp means no event; otherwise attribute the line to
the first matching event type. -/
def parseLine (cfg : Config) (line : String) (file : String) : Option Event :=
  match extractTimestamp cfg.tsFormats line with
  | none => none
  | some ts => findEventType cfg.patterns line ts file cfg.seq

/-! ## CycleStateMachine (analyze_events) -/

/-- The machine state between events: the stage index, the in-progress
cycle, its source-file set (insertion-ordered, deduplicated), and the
cycles handed to finalize_cycle so far, in order. -/
structure MState where
  state : ℕ
  cycle : Cycle
  files : List String
  fin : List (Cycle × List String)
deriving Repr

/-- Python set.add on the insertion-ordered file set. -/
def pyInsert (l : List String) (s : String) : List String :=
  if s ∈ l then l else l ++ [s]

/-- The fresh cycle dict: every stage maps to None, then the last stage is
set to the empty list. -/
def freshCycle (seq : List String) : Cycle :=
  dset (pyDict (seq.map (fun evt => (evt, Slot.null)))) (lastName seq) (Slot.many [])

/-- One iteration of the analyze_events loop on one event.  Unknown event
types are skipped; the first stage starts a new cycle (finalizing a
completed predecessor); the expected stage advances (appending on the
repeating stage); anything else resets the stage index to 0.  In the append
branch the slot is always a list when the branch is reachable (proved by
the invariants below); Python would raise AttributeError otherwise, and the
fallthrough keeps the cycle unchanged. -/
def stepEvent (seq : List String) (st : MState) (ev : Event) : MState :=
  match seq.findIdx? (fun s => s == ev.type) with
  | none => st
  | some idx =>
      if idx = 0 then
        { state := 1,
          cycle := dset (freshCycle seq) ev.type (Slot.one ev),
          files := [ev.file],
          fin := if st.state = seq.length then st.fin ++ [(st.cycle, st.files)] else st.fin }
      else if idx = st.state then
        { state := st.state + 1,
          cycle :=
            if idx = seq.length - 1 then
              match dget st.cycle ev.type with
              | some (Slot.many es) => dset st.cycle ev.type (Slot.many (es ++ [ev]))
              | _ => st.cycle
            else dset st.cycle ev.type (Slot.one ev),
          files := pyInsert st.files ev.file,
          fin := st.fin }
      else
        { st with state := 0 }

/-- The machine state entering the event loop. -/
def initState (seq : List String) : MState :=
  ⟨0, freshCycle seq, [], []⟩

/-- Run the analyze_events loop over a time-ordered event list. -/
def runMachine (seq : List String) (evs : List Event) : MState :=
  evs.foldl (stepEvent seq) (initState seq)

/-- analyze_events restricted to its grouping output: the cycles handed to
finalize_cycle, in call order.  The events argument is the time-sorted
event list (the Python method sorts self.events by timestamp first; every
claim quantifies over time-ordered lists, so the sort is kept outside). -/
def analyzeEvents (seq : List String) (evs : List Event) : List (Cycle × List String) :=
  if evs.isEmpty then []
  else
    let st := runMachine seq evs
    if st.state = seq.length then st.fin ++ [(st.cycle, st.files)] else st.fin

/-! ## CycleAggregator (build_record, validate_record, finalize_cycle) -/

/-- Stable ascending sort of the source-file set (Python sorted() on
strings compares code points lexicographically, as Lean string order does
on the strings arising here). -/
def insertStr (s : String) : List String → List String
  | [] => [s]
  | t :: ts => if s ≤ t then s :: t :: ts else t :: insertStr s ts

/-- Python sorted() on a list of strings. -/
def sortStrings (l : List String) : List String := l.foldr insertStr []

/-- Copy the configured fields of a non-repeating stage into the record,
defaulting a field missing from the event to the literal "NA".  A stage
whose slot is a non-empty list is truthy in Python and raises
AttributeError at evt.get; a missing, None or empty-list slot is falsy and
the stage is skipped. -/
def mergeStage (cfg : Config) (cycle : Cycle) (stage : String) (r : Record) :
    Except Unit Record :=
  match dget cycle stage with
  | some (Slot.one e) =>
      Except.ok ((pcFields cfg stage).foldl
        (fun r field => dset r field (RValue.str ((dget e.fields field).getD "NA"))) r)
  | some (Slot.many (_ :: _)) => Except.error ()
  | _ => Except.ok r

/-- The float values contributed by the repeating-stage events for one
field: a missing field contributes float(0), a present field contributes
float(value) when the conversion succeeds and is skipped when it raises. -/
def timingValues (cfg : Config) (es : List Event) (field : String) : List PyFloat :=
  es.filterMap (fun e =>
    match dget e.fields field with
    | none => some (PyFloat.fin 0)
    | some s => cfg.floatConv s)

/-- The StartTime value: the formatted technique timestamp, "NA" when the
technique slot is falsy (absent, None or empty list), and an exception
(TypeError on indexing a list with a string) when it is a non-empty
list. -/
def startTimeE (cfg : Config) (cycle : Cycle) : Except Unit String :=
  match dget cycle "technique" with
  | some (Slot.one e) => Except.ok (cfg.strf e.time)
  | some (Slot.many (_ :: _)) => Except.error ()
  | _ => Except.ok "NA"

/-- cycle.get(last_stage, []): the repeating-stage event list, defaulting
to [] when the key is absent; a non-list slot makes the later loops raise
(see buildRecord). -/
def timingEventsE (cfg : Config) (cycle : Cycle) : Except Unit (List Event) :=
  match dget cycle (lastName cfg.seq) with
  | some (Slot.many es) => Except.ok es
  | none => Except.ok []
  | some _ => Except.error ()

/-- The value stored for one repeating-stage field: mean of the contributed
values rounded to 2 places, or None when no value was contributed. -/
def avgValue (cfg : Config) (es : List Event) (field : String) : RValue :=
  if (timingValues cfg es field).isEmpty then RValue.null
  else RValue.float (PyFloat.round2f (PyFloat.divN (PyFloat.sumL (timingValues cfg es field))
    (timingValues cfg es field).length))

/-- The averages loop of build_record over the repeating-stage fields. -/
def avgLoop (cfg : Config) (es : List Event) (r : Record) : Record :=
  (pcFields cfg (lastName cfg.seq)).foldl (fun r field => dset r ("Avg" ++ field) (avgValue cfg es field)) r

/-- The duration assignment of build_record: only entered when the
repeating-stage list is non-empty; the elapsed seconds between the first
and last repeating event, rounded to 3 decimal places. -/
def addDuration (es : List Event) (r : Record) : Record :=
  match es with
  | [] => r
  | e0 :: _ =>
      dset r "Duration(s)" (RValue.float (PyFloat.fin (round3 ((es.getLastD e0).time - e0.time))))

/-- build_record.  The error value models any exception escaping the Python
method (caught by finalize_cycle): indexing a list slot with a string for
StartTime, calling get on a list slot in the stage merge, or iterating a
non-list repeating slot in the averages loop (the repeating slot of a
machine-produced cycle of a length-one sequence holds a single event dict,
on which the averages loop raises; that is modelled uniformly as an
error). -/
def buildRecord (cfg : Config) (cycle : Cycle) (files : List String) :
    Except Unit Record :=
  match startTimeE cfg cycle with
  | Except.error e => Except.error e
  | Except.ok startTime =>
      match mergeStage cfg cycle "query"
          [("SourceFiles", RValue.str (String.intercalate "+" (sortStrings files))),
           ("StartTime", RValue.str startTime)] with
      | Except.error e => Except.error e
      | Except.ok r1 =>
          match mergeStage cfg cycle "technique" r1 with
          | Except.error e => Except.error e
          | Except.ok r2 =>
              match timingEventsE cfg cycle with
              | Except.error e => Except.error e
              | Except.ok es =>
                  Except.ok (addDuration es
                    (dset (avgLoop cfg es r2) "frames" (RValue.int (es.length : ℤ))))

/-- Python truthiness of a record value as tested on rec.get(key). -/
def truthy : Option RValue → Bool
  | none => false
  | some (RValue.str s) => !(s == "")
  | some (RValue.float (PyFloat.fin q)) => decide (q ≠ 0)
  | some (RValue.float PyFloat.nan) => true
  | some (RValue.int n) => decide (n ≠ 0)
  | some RValue.null => false

/-- isinstance(rec.get("frames"), int). -/
def isIntV : Option RValue → Bool
  | some (RValue.int _) => true
  | _ => false

/-- validate_record: StartTime truthy, frames an int, and no value is a
float NaN. -/
def validateRecord (r : Record) : Bool :=
  truthy (dget r "StartTime") && isIntV (dget r "frames") &&
    r.all (fun kv => !(kv.2 == RValue.float PyFloat.nan))

/-- The counters and results touched by finalize_cycle. -/
structure Metrics where
  results : List Record
  cycles_completed : ℕ
  cycle_errors : ℕ
deriving DecidableEq, Repr

/-- finalize_cycle: append the record and bump cycles_completed on success,
silently drop a record failing validation, bump cycle_errors on an
exception from build_record. -/
def finalizeCycle (cfg : Config) (m : Metrics) (cycle : Cycle) (files : List String) :
    Metrics :=
  match buildRecord cfg cycle files with
  | Except.ok rec =>
      if validateRecord rec then
        { m with results := m.results ++ [rec], cycles_completed := m.cycles_completed + 1 }
      else m
  | Except.error _ => { m with cycle_errors := m.cycle_errors + 1 }

/-! ## Concrete instances for witnesses and counterexamples

These instantiate the abstracted Python builtins on exactly the literals
used by the concrete inputs below (the pattern functions model re.search of
the configured regexes on those lines, fmt0 models strptime with the format
"%Y/%m/%d %H:%M:%S.%f" on the two timestamps, floatLit models float() on
non-negative integer literals and on "nan"). -/

/-- strptime with the default first format, on the two timestamps used. -/
def fmt0 : String → Option ℚ :=
  fun s => if s = "2025/07/09 00:00:00.000" then some 0
           else if s = "2025/07/09 00:00:01.000" then some 1 else none

/-- The first sample log line of the test suite. -/
def line0 : String := "[2025/07/09 00:00:00.000] Step=1"

/-- The second sample log line of the test suite. -/
def line1 : String := "[2025/07/09 00:00:01.000] Value=100"

/-- The test-suite PATTERN_CONFIG, with each regex abstracted to its match
result on the two sample lines. -/
def pat0 : String → List (String × (String → Option String)) :=
  fun evt =>
    if evt = "init" then [("Step", fun l => if l = line0 then some "1" else none)]
    else if evt = "execute" then [("Value", fun l => if l = line1 then some "100" else none)]
    else []

/-- Python float() on the string literals arising in the concrete inputs:
non-negative integer literals convert to their value, "nan" converts to
NaN, everything else raises. -/
def floatLit (s : String) : Option PyFloat :=
  if s = "nan" then some PyFloat.nan
  else if s = "100" then some (PyFloat.fin 100)
  else if s = "200" then some (PyFloat.fin 200)
  else none

/-- The test-suite configuration: EVENT_SEQUENCE ["init", "execute"]. -/
def cfg0 : Config :=
  { seq := ["init", "execute"], patterns := pat0, tsFormats := [fmt0],
    floatConv := floatLit, strf := fun _ => "25/07/09 00:00:00" }

/-- The event parse_line extracts from line0. -/
def eInit : Event := ⟨0, "f.log", "init", [("Step", "1")]⟩

/-- The event parse_line extracts from line1. -/
def eExec : Event := ⟨1, "f.log", "execute", [("Value", "100")]⟩

/-- The cycle the state machine finalizes from [eInit, eExec]. -/
def cyc0 : Cycle := [("init", Slot.one eInit), ("execute", Slot.many [eExec])]

/-- The record build_record produces from cyc0. -/
def rec0 : Record :=
  [("SourceFiles", RValue.str "f.log"), ("StartTime", RValue.str "NA"),
   ("AvgValue", RValue.float (PyFloat.fin 100)), ("frames", RValue.int 1),
   ("Duration(s)", RValue.float (PyFloat.fin 0))]

/-- An execute event carrying no extracted field at all. -/
def eExecNoVal : Event := ⟨1, "f.log", "execute", []⟩

/-- A finalized cycle whose single repeating event lacks the Value field. -/
def cycNoVal : Cycle := [("init", Slot.one eInit), ("execute", Slot.many [eExecNoVal])]

/-- An execute event whose Value field converts to float NaN. -/
def eExecNan : Event := ⟨1, "f.log", "execute", [("Value", "nan")]⟩

/-- A finalized cycle whose record fails validation (AvgValue is NaN). -/
def cycNan : Cycle := [("init", Slot.one eInit), ("execute", Slot.many [eExecNan])]

/-- A cycle on which build_record raises (the repeating slot holds a single
event dict, as a length-one sequence produces). -/
def cycBad : Cycle := [("init", Slot.one eInit), ("execute", Slot.one eExec)]

/-! ## Dictionary lemmas -/

def eInit2 : Event := ⟨2, "f.log", "init", [("Step", "1")]⟩
def eExec2 : Event := ⟨3, "f.log", "execute", [("Value", "100")]⟩

/-- The spec invariant on an in-progress cycle: the repeating stage holds a
list and every other stage holds None or a single event. -/
def wellFormedCycle (seq : List String) (c : Cycle) : Bool :=
  (match dget c (lastName seq) with
   | some (Slot.many _) => true
   | _ => false) &&
  c.all (fun kv => kv.1 == lastName seq ||
    (match kv.2 with
     | Slot.null => true
     | Slot.one _ => true
     | Slot.many _ => false))

def WFC (seq : List String) (c : Cycle) : Prop :=
  (∃ es, dget c (lastName seq) = some (Slot.many es)) ∧
  (∀ kv ∈ c, kv.1 ≠ lastName seq → (kv.2 = Slot.null ∨ ∃ e, kv.2 = Slot.one e))

def eBoot : Event := ⟨0, "f.log", "boot", []⟩

/-- The inductive invariant behind C3: every finalized cycle keeps exactly
one event in the repeating stage; a completed in-progress cycle does too;
and below completion the repeating slot is the empty list, except when a
duplicate stage name made the machine store a single event there, which
also blocks ever completing (the findIdx? disequality). -/
def InvC3 (seq : List String) (st : MState) : Prop :=
  (∀ cf ∈ st.fin, ∃ e, dget cf.1 (lastName seq) = some (Slot.many [e])) ∧
  (st.state = seq.length → ∃ e, dget st.cycle (lastName seq) = some (Slot.many [e])) ∧
  (0 < st.state → st.state < seq.length →
    dget st.cycle (lastName seq) = some (Slot.many []) ∨
    ((∃ e, dget st.cycle (lastName seq) = some (Slot.one e)) ∧
     seq.findIdx? (fun s => s == lastName seq) ≠ some (seq.length - 1)))

/-- The events held in one cycle slot. -/
def slotEvents : Slot → List Event
  | Slot.null => []
  | Slot.one e => [e]
  | Slot.many es => es

/-- All events held anywhere in an in-progress cycle. -/
def cycleEvents (c : Cycle) : List Event :=
  c.foldr (fun kv acc => slotEvents kv.2 ++ acc) []

def eExec3 : Event := ⟨1, "f.log", "execute", []⟩

def recNoVal : Record :=
  [("SourceFiles", RValue.str "f.log"), ("StartTime", RValue.str "NA"),
   ("AvgValue", RValue.float (PyFloat.fin 0)), ("frames", RValue.int 1),
   ("Duration(s)", RValue.float (PyFloat.fin 0))]

def recNan : Record :=
  [("SourceFiles", RValue.str "f.log"), ("StartTime", RValue.str "NA"),
   ("AvgValue", RValue.float PyFloat.nan), ("frames", RValue.int 1),
   ("Duration(s)", RValue.float (PyFloat.fin 0))]

/-! ## Lemmas and claim theorems -/

theorem find?_map_replace {α : Type} (k : String) (v : α) (d : List (String × α)) :
    (d.map (fun kv => if kv.1 == k then (k, v) else kv)).find? (fun kv => kv.1 == k) =
      (d.find? (fun kv => kv.1 == k)).map (fun _ => (k, v)) := by
  induction d with
  | nil => rfl
  | cons kv d ih =>
      simp only [List.map_cons, List.find?_cons]
      by_cases h : kv.1 = k
      · have hb : (kv.1 == k) = true := by simp [h]
        rw [hb]
        simp
      · have hb : (kv.1 == k) = false := by simp [h]
        rw [hb]
        simp only [if_false, Bool.false_eq_true]
        rw [hb]
        exact ih

theorem find?_map_replace_ne {α : Type} (k0 k : String) (v0 : α) (hk : k0 ≠ k)
    (d : List (String × α)) :
    (d.map (fun kv => if kv.1 == k0 then (k0, v0) else kv)).find? (fun kv => kv.1 == k) =
      d.find? (fun kv => kv.1 == k) := by
  induction d with
  | nil => rfl
  | cons kv d ih =>
      simp only [List.map_cons, List.find?_cons]
      by_cases h1 : kv.1 = k0
      · have hb : (kv.1 == k0) = true := by simp [h1]
        have h2 : kv.1 ≠ k := by rw [h1]; exact hk
        have hb2 : (kv.1 == k) = false := by simp [h2]
        have hb3 : (k0 == k) = false := by simp [hk]
        rw [hb]
        simp only [if_true, hb3, hb2]
        exact ih
      · have hb : (kv.1 == k0) = false := by simp [h1]
        rw [hb]
        simp only [if_false, Bool.false_eq_true]
        rcases hb2 : (kv.1 == k) with _ | _ <;> simp only [hb2]
        · exact ih

theorem dget_dset {α : Type} (d : List (String × α)) (k0 : String) (v0 : α) (k : String) :
    dget (dset d k0 v0) k = if k0 = k then some v0 else dget d k := by
  unfold dget dset
  by_cases hmem : (d.find? (fun kv => kv.1 == k0)).isSome
  · simp only [hmem, if_true]
    by_cases hk : k0 = k
    · subst hk
      rw [find?_map_replace]
      rcases h : d.find? (fun kv => kv.1 == k0) with _ | kv
      · rw [h] at hmem; simp at hmem
      · rw [h]; simp
    · rw [find?_map_replace_ne k0 k v0 hk]
      simp [hk]
  · rw [Bool.not_eq_true] at hmem
    rw [hmem]
    simp only [Bool.false_eq_true, if_false]
    rw [List.find?_append]
    by_cases hk : k0 = k
    · subst hk
      have hnone : d.find? (fun kv => kv.1 == k0) = none := by
        rcases h : d.find? (fun kv => kv.1 == k0) with _ | kv
        · exact h
        · rw [h] at hmem; simp at hmem
      rw [hnone]
      simp [List.find?]
    · have hb : (k0 == k) = false := by simp [hk]
      have h2 : List.find? (fun kv => kv.1 == k) [(k0, v0)] = none := by
        simp [List.find?, hb]
      rw [h2]
      simp [hk]

theorem dget_dset_self {α : Type} (d : List (String × α)) (k : String) (v : α) :
    dget (dset d k v) k = some v := by
  rw [dget_dset]; simp

theorem dget_dset_ne {α : Type} (d : List (String × α)) (k0 : String) (v0 : α)
    (k : String) (h : k0 ≠ k) : dget (dset d k0 v0) k = dget d k := by
  rw [dget_dset]; simp [h]

theorem mem_dset {α : Type} {d : List (String × α)} {k : String} {v : α} {kv : String × α}
    (h : kv ∈ dset d k v) : kv = (k, v) ∨ kv ∈ d := by
  unfold dset at h
  by_cases hmem : (d.find? (fun kv => kv.1 == k)).isSome
  · rw [if_pos hmem] at h
    rcases List.mem_map.mp h with ⟨kv2, hkv2, heq⟩
    by_cases hk : kv2.1 = k
    · left
      rw [← heq]
      simp [hk]
    · right
      have hb : (kv2.1 == k) = false := by simp [hk]
      rw [← heq]
      simp [hb]
      exact hkv2
  · rw [if_neg hmem] at h
    rcases List.mem_append.mp h with h1 | h1
    · right; exact h1
    · left; simpa using h1
  
theorem mem_of_dget {α : Type} {d : List (String × α)} {k : String} {v : α}
    (h : dget d k = some v) : (k, v) ∈ d := by
  unfold dget at h
  rcases h2 : d.find? (fun kv => kv.1 == k) with _ | kv
  · rw [h2] at h; simp at h
  · rw [h2] at h
    have hp := (List.find?_eq_some.mp h2).1
    have hm := List.mem_of_find?_eq_some h2
    have : kv.2 = v := by simpa using h
    have hk : kv.1 = k := by simpa using hp
    have : kv = (k, v) := by
      rcases kv with ⟨a, b⟩
      simp only at hk this
      rw [hk, this]
    rw [← this]
    exact hm

theorem pyDict_const_val {α : Type} (c : α) (l : List String) :
    ∀ kv ∈ pyDict (l.map (fun e => (e, c))), kv.2 = c := by
  unfold pyDict
  suffices h : ∀ (l : List String) (d : List (String × α)),
      (∀ kv ∈ d, kv.2 = c) →
      ∀ kv ∈ (l.map (fun e => (e, c))).foldl (fun d kv => dset d kv.1 kv.2) d, kv.2 = c by
    intro kv hkv
    exact h l [] (by intro kv h; simp at h) kv hkv
  intro l
  induction l with
  | nil => intro d hd kv hkv; exact hd kv hkv
  | cons x xs ih =>
      intro d hd kv hkv
      simp only [List.map_cons, List.foldl_cons] at hkv
      refine ih (dset d x c) ?_ kv hkv
      intro kv2 hkv2
      rcases mem_dset hkv2 with h1 | h1
      · rw [h1]
      · exact hd kv2 h1

theorem dget_freshCycle_last (seq : List String) :
    dget (freshCycle seq) (lastName seq) = some (Slot.many []) := by
  unfold freshCycle
  rw [dget_dset]
  simp

theorem dget_freshCycle_other (seq : List String) (k : String) (v : Slot)
    (hk : lastName seq ≠ k) (h : dget (freshCycle seq) k = some v) : v = Slot.null := by
  unfold freshCycle at h
  rw [dget_dset] at h
  rw [if_neg hk] at h
  exact pyDict_const_val Slot.null seq (k, v) (mem_of_dget h)

theorem findIdx?_acc_spec {α : Type} (p : α → Bool) :
    ∀ (l : List α) (j i : ℕ), List.findIdx? p l j = some i →
      j ≤ i ∧ i - j < l.length ∧ ∃ a, l.get? (i - j) = some a ∧ p a = true := by
  intro l
  induction l with
  | nil => intro j i h; simp [List.findIdx?] at h
  | cons x xs ih =>
      intro j i h
      rw [List.findIdx?_cons] at h
      by_cases hp : p x = true
      · rw [if_pos hp] at h
        have : j = i := by simpa using h
        subst this
        refine ⟨Nat.le_refl j, by simp, x, ?_, hp⟩
        simp
      · rw [if_neg hp] at h
        rcases ih (j + 1) i h with ⟨h1, h2, a, h3, h4⟩
        refine ⟨by omega, by simp; omega, a, ?_, h4⟩
        have hij : i - j = (i - (j + 1)) + 1 := by omega
        rw [hij]
        simpa using h3

theorem findIdx?_spec {α : Type} (p : α → Bool) (l : List α) (i : ℕ)
    (h : l.findIdx? p = some i) :
    i < l.length ∧ ∃ a, l.get? i = some a ∧ p a = true := by
  have := findIdx?_acc_spec p l 0 i h
  simpa using this

theorem getq_lastName (seq : List String) (hne : seq ≠ []) :
    seq.get? (seq.length - 1) = some (lastName seq) := by
  unfold lastName
  rw [List.getLastD_eq_getLast?]
  rw [← List.getLast?_eq_get?]
  rcases h : seq.getLast? with _ | a
  · rw [List.getLast?_eq_none_iff] at h
    exact absurd h hne
  · rfl

theorem findIdx?_last_eq (seq : List String) (ty : String) (hne : seq ≠ [])
    (h : seq.findIdx? (fun s => s == ty) = some (seq.length - 1)) : ty = lastName seq := by
  rcases findIdx?_spec _ _ _ h with ⟨h1, a, h2, h3⟩
  rw [getq_lastName seq hne] at h2
  have h5 : lastName seq = a := by simpa using h2
  have h4 : a = ty := by simpa using h3
  rw [← h4, ← h5]

theorem foldl_pres {α β : Type} (f : β → α → β) (P : β → Prop) (l : List α) (b : β)
    (h0 : P b) (hs : ∀ b a, a ∈ l → P b → P (f b a)) : P (l.foldl f b) := by
  induction l generalizing b with
  | nil => exact h0
  | cons x xs ih =>
      rw [List.foldl_cons]
      exact ih (f b x) (hs b x (by simp) h0)
        (fun b2 a ha hb => hs b2 a (by simp [ha]) hb)

theorem dget_foldl_dset_ne {α β : Type} (l : List β) (g : β → String) (v : β → α)
    (r : List (String × α)) (k : String) (h : ∀ a ∈ l, g a ≠ k) :
    dget (l.foldl (fun r x => dset r (g x) (v x)) r) k = dget r k := by
  induction l generalizing r with
  | nil => rfl
  | cons x xs ih =>
      rw [List.foldl_cons]
      rw [ih (dset r (g x) (v x)) (fun a ha => h a (by simp [ha]))]
      rw [dget_dset_ne _ _ _ _ (h x (by simp))]

theorem dget_foldl_dset_mem {α β : Type} (l : List β) (g : β → String) (v : β → α)
    (r : List (String × α)) (a : β) (ha : a ∈ l) (hnd : (l.map g).Nodup) :
    dget (l.foldl (fun r x => dset r (g x) (v x)) r) (g a) = some (v a) := by
  induction l generalizing r with
  | nil => simp at ha
  | cons x xs ih =>
      rw [List.foldl_cons]
      rcases List.mem_cons.mp ha with h1 | h1
      · subst h1
        have hnotin : ∀ b ∈ xs, g b ≠ g a := by
          intro b hb heq
          simp only [List.map_cons, List.nodup_cons] at hnd
          exact hnd.1 (heq ▸ List.mem_map.mpr ⟨b, hb, rfl⟩)
        rw [dget_foldl_dset_ne xs g v _ (g a) hnotin]
        exact dget_dset_self _ _ _
      · simp only [List.map_cons, List.nodup_cons] at hnd
        exact ih (dset r (g x) (v x)) h1 hnd.2

theorem avg_key_ne_frames (f : String) : ("Avg" ++ f) ≠ "frames" := by
  intro h
  have := congrArg String.data h
  rw [String.data_append] at this
  simp at this

theorem avg_key_ne_duration (f : String) : ("Avg" ++ f) ≠ "Duration(s)" := by
  intro h
  have := congrArg String.data h
  rw [String.data_append] at this
  simp at this

theorem avg_key_inj (f g : String) (h : ("Avg" ++ f) = ("Avg" ++ g)) : f = g := by
  have h2 := congrArg String.data h
  rw [String.data_append, String.data_append] at h2
  have h3 := List.append_cancel_left h2
  rcases f with ⟨fd⟩
  rcases g with ⟨gd⟩
  simp only at h3
  rw [h3]

theorem frames_ne_duration : ("frames" : String) ≠ "Duration(s)" := by decide

theorem mergeStage_dget_ne (cfg : Config) (cycle : Cycle) (stage : String)
    (r r2 : Record) (k : String) (hok : mergeStage cfg cycle stage r = Except.ok r2)
    (hk : k ∉ pcFields cfg stage) : dget r2 k = dget r k := by
  unfold mergeStage at hok
  rcases h : dget cycle stage with _ | sl
  · rw [h] at hok
    have h5 : r = r2 := by simpa using hok
    rw [← h5]
  · rcases sl with _ | e | es
    · rw [h] at hok
      have h5 : r = r2 := by simpa using hok
      rw [← h5]
    · rw [h] at hok
      have hr2 : r2 = (pcFields cfg stage).foldl
          (fun r field => dset r field (RValue.str ((dget e.fields field).getD "NA"))) r := by
        simpa using hok.symm
      rw [hr2]
      exact dget_foldl_dset_ne (pcFields cfg stage) (fun f => f)
        (fun field => RValue.str ((dget e.fields field).getD "NA")) r k
        (fun a ha heq => hk (heq ▸ ha))
    · rcases es with _ | ⟨e1, es⟩
      · rw [h] at hok
        have h5 : r = r2 := by simpa using hok
        rw [← h5]
      · rw [h] at hok
        simp at hok

theorem buildRecord_fields (cfg : Config) (cycle : Cycle) (files : List String)
    (es : List Event) (rec : Record)
    (hlast : dget cycle (lastName cfg.seq) = some (Slot.many es))
    (hok : buildRecord cfg cycle files = Except.ok rec) :
    dget rec "frames" = some (RValue.int (es.length : ℤ)) ∧
    (∀ e0 rest, es = e0 :: rest →
      dget rec "Duration(s)" =
        some (RValue.float (PyFloat.fin (round3 ((es.getLastD e0).time - e0.time))))) ∧
    (es = [] → "Duration(s)" ∉ pcFields cfg "query" →
      "Duration(s)" ∉ pcFields cfg "technique" → dget rec "Duration(s)" = none) ∧
    (∀ field, field ∈ pcFields cfg (lastName cfg.seq) →
      (pcFields cfg (lastName cfg.seq)).Nodup →
      dget rec ("Avg" ++ field) = some (avgValue cfg es field)) := by
  have h4 : timingEventsE cfg cycle = Except.ok es := by
    unfold timingEventsE; rw [hlast]
  unfold buildRecord at hok
  rcases h1 : startTimeE cfg cycle with e | st
  · rw [h1] at hok
    simp at hok
  simp only [h1] at hok
  rcases h2 : mergeStage cfg cycle "query"
      [("SourceFiles", RValue.str (String.intercalate "+" (sortStrings files))),
       ("StartTime", RValue.str st)] with e | r1
  · rw [h2] at hok
    simp at hok
  simp only [h2] at hok
  rcases h3 : mergeStage cfg cycle "technique" r1 with e | r2
  · rw [h3] at hok
    simp at hok
  simp only [h3, h4] at hok
  have hrec : rec =
      addDuration es (dset (avgLoop cfg es r2) "frames" (RValue.int (es.length : ℤ))) := by
    simpa using hok.symm
  subst hrec
  refine ⟨?_, ?_, ?_, ?_⟩
  · rcases es with _ | ⟨e0, rest⟩
    · unfold addDuration
      exact dget_dset_self _ _ _
    · unfold addDuration
      rw [dget_dset_ne _ _ _ _ frames_ne_duration.symm]
      exact dget_dset_self _ _ _
  · intro e0 rest hes
    subst hes
    unfold addDuration
    exact dget_dset_self _ _ _
  · intro hes hq ht
    subst hes
    unfold addDuration
    rw [dget_dset_ne _ _ _ _ frames_ne_duration]
    unfold avgLoop
    rw [dget_foldl_dset_ne _ (fun f => "Avg" ++ f) _ _ _
      (fun a _ => avg_key_ne_duration a)]
    rw [mergeStage_dget_ne cfg cycle "technique" r1 r2 _ h3 ht]
    rw [mergeStage_dget_ne cfg cycle "query" _ r1 _ h2 hq]
    rfl
  · intro field hf hnd
    have step1 : dget (addDuration es
        (dset (avgLoop cfg es r2) "frames" (RValue.int (es.length : ℤ)))) ("Avg" ++ field) =
        dget (dset (avgLoop cfg es r2) "frames" (RValue.int (es.length : ℤ))) ("Avg" ++ field) := by
      rcases es with _ | ⟨e0, rest⟩
      · rfl
      · unfold addDuration
        exact dget_dset_ne _ _ _ _ (avg_key_ne_duration field).symm
    rw [step1]
    rw [dget_dset_ne _ _ _ _ (avg_key_ne_frames field).symm]
    unfold avgLoop
    exact dget_foldl_dset_mem (pcFields cfg (lastName cfg.seq)) (fun f => "Avg" ++ f)
      (avgValue cfg es) r2 field hf
      (hnd.map (fun a b hab => avg_key_inj a b hab))

theorem tryFormats_all_none (fmts : List (String → Option ℚ)) (s : String)
    (h : ∀ f ∈ fmts, f s = none) : tryFormats fmts s = none := by
  induction fmts with
  | nil => rfl
  | cons f fs ih =>
      simp only [tryFormats]
      rw [h f (by simp)]
      exact ih (fun g hg => h g (by simp [hg]))

theorem tryFormats_first (gs : List (String → Option ℚ)) (f : String → Option ℚ)
    (hs : List (String → Option ℚ)) (s : String) (t : ℚ)
    (hgs : ∀ g ∈ gs, g s = none) (hf : f s = some t) :
    tryFormats (gs ++ f :: hs) s = some t := by
  induction gs with
  | nil =>
      rw [List.nil_append]
      simp only [tryFormats]
      rw [hf]
  | cons g gs ih =>
      rw [List.cons_append]
      simp only [tryFormats]
      rw [hgs g (by simp)]
      exact ih (fun g2 hg2 => hgs g2 (by simp [hg2]))

/-- C10: extract_timestamp takes the first bracketed substring of the line
and returns no timestamp when the line has none; otherwise it tries the
configured formats left to right on that substring, returns the first
successful parse, and returns no timestamp when every format fails. -/
theorem c10_timestamp_first_bracket_format_order (fmts : List (String → Option ℚ))
    (line : String) :
    (bracketContent line.data = none → extractTimestamp fmts line = none) ∧
    (∀ cs, bracketContent line.data = some cs →
      ((∀ f ∈ fmts, f (String.mk cs) = none) → extractTimestamp fmts line = none) ∧
      (∀ gs f hs t, fmts = gs ++ f :: hs → (∀ g ∈ gs, g (String.mk cs) = none) →
        f (String.mk cs) = some t → extractTimestamp fmts line = some t)) := by
  constructor
  · intro h
    unfold extractTimestamp
    rw [h]
  · intro cs hcs
    constructor
    · intro h
      unfold extractTimestamp
      rw [hcs]
      exact tryFormats_all_none fmts (String.mk cs) h
    · intro gs f hs t hsplit hgs hf
      unfold extractTimestamp
      rw [hcs, hsplit]
      exact tryFormats_first gs f hs (String.mk cs) t hgs hf

/-- Witness for C10 at the sample line and the default first format. -/
theorem c10_witness : extractTimestamp [fmt0] line0 = some 0 := by
  have h := (c10_timestamp_first_bracket_format_order [fmt0] line0).2
    ("2025/07/09 00:00:00.000".data) (by rfl)
  exact h.2 [] fmt0 [] 0 rfl (by intro g hg; simp at hg) (by rfl)

theorem findEventType_all_none (pats : String → List (String × (String → Option String)))
    (line : String) (ts : ℚ) (file : String) (l : List String)
    (h : ∀ evt ∈ l, matchFields (pats evt) line = []) :
    findEventType pats line ts file l = none := by
  induction l with
  | nil => rfl
  | cons evt rest ih =>
      unfold findEventType
      rw [if_pos (h evt (by simp))]
      exact ih (fun e2 he2 => h e2 (by simp [he2]))

theorem findEventType_first (pats : String → List (String × (String → Option String)))
    (line : String) (ts : ℚ) (file : String) (gs : List String) (evt : String)
    (hs : List String) (hgs : ∀ e2 ∈ gs, matchFields (pats e2) line = [])
    (hevt : matchFields (pats evt) line ≠ []) :
    findEventType pats line ts file (gs ++ evt :: hs) =
      some ⟨ts, file, evt, pyDict (matchFields (pats evt) line)⟩ := by
  induction gs with
  | nil =>
      rw [List.nil_append]
      unfold findEventType
      rw [if_neg hevt]
  | cons g gs ih =>
      rw [List.cons_append]
      unfold findEventType
      rw [if_pos (hgs g (by simp))]
      exact ih (fun e2 he2 => hgs e2 (by simp [he2]))

/-- C9: for a line with a parsed timestamp, parse_line emits at most one
event: the first event type of the sequence with at least one matching
field pattern yields an event holding the timestamp, source file, event
type and exactly the matched fields; later event types are not tried, and
a line matching no event type yields no event. -/
theorem c9_extractor_first_match (cfg : Config) (line file : String) (ts : ℚ)
    (hts : extractTimestamp cfg.tsFormats line = some ts) :
    ((∀ evt ∈ cfg.seq, matchFields (cfg.patterns evt) line = []) →
      parseLine cfg line file = none) ∧
    (∀ gs evt hs, cfg.seq = gs ++ evt :: hs →
      (∀ e2 ∈ gs, matchFields (cfg.patterns e2) line = []) →
      matchFields (cfg.patterns evt) line ≠ [] →
      parseLine cfg line file =
        some ⟨ts, file, evt, pyDict (matchFields (cfg.patterns evt) line)⟩) := by
  constructor
  · intro h
    unfold parseLine
    rw [hts]
    exact findEventType_all_none cfg.patterns line ts file cfg.seq h
  · intro gs evt hs hsplit hgs hevt
    unfold parseLine
    rw [hts, hsplit]
    exact findEventType_first cfg.patterns line ts file gs evt hs hgs hevt

/-- Witness for C9: the first sample line is attributed to the init stage
with exactly the Step field. -/
theorem c9_witness : parseLine cfg0 line0 "f.log" = some eInit := by
  have h := (c9_extractor_first_match cfg0 line0 "f.log" 0 (by rfl)).2
    [] "init" ["execute"] rfl (by intro e2 he2; simp at he2) (by decide)
  exact h

theorem floatLit_100 : floatLit "100" = some (PyFloat.fin 100) := by rfl

theorem avgValue_cfg0 : avgValue cfg0 [eExec] "Value" = RValue.float (PyFloat.fin 100) := by
  unfold avgValue timingValues
  simp [cfg0, eExec, dget, List.find?, floatLit_100, PyFloat.sumL, PyFloat.add,
        PyFloat.divN, PyFloat.round2f]
  norm_num [round2, rhe]

theorem dur_cfg0 : round3 (([eExec].getLastD eExec).time - eExec.time) = 0 := by
  norm_num [eExec, round3, rhe]

theorem buildRecord_cfg0_eq : buildRecord cfg0 cyc0 ["f.log"] = Except.ok rec0 := by
  have h1 : startTimeE cfg0 cyc0 = Except.ok "NA" := by rfl
  have h4 : timingEventsE cfg0 cyc0 = Except.ok [eExec] := by rfl
  unfold buildRecord
  simp only [h1, h4]
  have h2 : mergeStage cfg0 cyc0 "query"
      [("SourceFiles", RValue.str (String.intercalate "+" (sortStrings ["f.log"]))),
       ("StartTime", RValue.str "NA")] =
      Except.ok [("SourceFiles", RValue.str "f.log"), ("StartTime", RValue.str "NA")] := by rfl
  simp only [h2]
  have h3 : mergeStage cfg0 cyc0 "technique"
      [("SourceFiles", RValue.str "f.log"), ("StartTime", RValue.str "NA")] =
      Except.ok [("SourceFiles", RValue.str "f.log"), ("StartTime", RValue.str "NA")] := by rfl
  simp only [h3]
  unfold avgLoop
  simp only [cfg0, lastName]
  show Except.ok (addDuration [eExec]
    (dset (List.foldl (fun r field => dset r ("Avg" ++ field) (avgValue cfg0 [eExec] field))
      [("SourceFiles", RValue.str "f.log"), ("StartTime", RValue.str "NA")]
      (pcFields cfg0 "execute"))
      "frames" (RValue.int 1))) = Except.ok rec0
  have h5 : pcFields cfg0 "execute" = ["Value"] := by rfl
  rw [h5]
  simp only [List.foldl_cons, List.foldl_nil, avgValue_cfg0]
  simp only [addDuration]
  rw [dur_cfg0]
  rfl

/-- C6 counterexample: build_record yields a record whose StartTime is the
literal "NA" (no technique stage in the sequence), and validate_record
accepts it, since the string "NA" is truthy; the claim says such a record
is rejected. -/
theorem c6_counterexample :
    buildRecord cfg0 cyc0 ["f.log"] = Except.ok rec0 ∧
    dget rec0 "StartTime" = some (RValue.str "NA") ∧
    validateRecord rec0 = true := by
  exact ⟨buildRecord_cfg0_eq, by rfl, by rfl⟩

/-- C6 amended: validate_record accepts a record exactly when its StartTime
value is truthy (so the non-empty string "NA" passes), its frames value is
an int (sign not checked), and no value is a float NaN. -/
theorem c6_validation_characterization (r : Record) :
    validateRecord r = true ↔
      (truthy (dget r "StartTime") = true ∧ isIntV (dget r "frames") = true ∧
       ∀ kv ∈ r, kv.2 ≠ RValue.float PyFloat.nan) := by
  unfold validateRecord
  simp [List.all_eq_true, and_assoc]

/-- C1: feeding the machine the event types init, execute, init, execute in
time order finalizes exactly two cycles; feeding execute, init (out of
order first) finalizes none. -/
theorem c1_two_cycles_then_zero (e1 e2 e3 e4 : Event)
    (h1 : e1.type = "init") (h2 : e2.type = "execute") (h3 : e3.type = "init")
    (h4 : e4.type = "execute") (ht1 : e1.time ≤ e2.time) (ht2 : e2.time ≤ e3.time)
    (ht3 : e3.time ≤ e4.time) :
    (analyzeEvents ["init", "execute"] [e1, e2, e3, e4]).length = 2 ∧
    (∀ f1 f2 : Event, f1.type = "execute" → f2.type = "init" → f1.time ≤ f2.time →
      (analyzeEvents ["init", "execute"] [f1, f2]).length = 0) := by
  constructor
  · simp [analyzeEvents, runMachine, initState, stepEvent, h1, h2, h3, h4,
      freshCycle, lastName, pyDict, dset, dget, List.find?, List.findIdx?, pyInsert,
      List.findIdx?_cons]
  · intro f1 f2 hf1 hf2 htf
    simp [analyzeEvents, runMachine, initState, stepEvent, hf1, hf2,
      freshCycle, lastName, pyDict, dset, dget, List.find?, List.findIdx?, pyInsert,
      List.findIdx?_cons]

/-- Witness for C1 at four concrete events. -/
theorem c1_witness :
    (analyzeEvents ["init", "execute"] [eInit, eExec, eInit2, eExec2]).length = 2 ∧
    (analyzeEvents ["init", "execute"] [eExec, eInit2]).length = 0 := by
  have h := c1_two_cycles_then_zero eInit eExec eInit2 eExec2 rfl rfl rfl rfl
    (by norm_num [eInit, eExec]) (by norm_num [eExec, eInit2]) (by norm_num [eInit2, eExec2])
  exact ⟨h.1, h.2 eExec eInit2 rfl rfl (by norm_num [eExec, eInit2])⟩

theorem WFC_bool (seq : List String) (c : Cycle) (h : WFC seq c) :
    wellFormedCycle seq c = true := by
  rcases h with ⟨⟨es, h1⟩, h2⟩
  unfold wellFormedCycle
  rw [Bool.and_eq_true]
  constructor
  · rw [h1]
  · rw [List.all_eq_true]
    intro kv hkv
    by_cases hk : kv.1 = lastName seq
    · simp [hk]
    · rcases h2 kv hkv hk with h3 | ⟨e, h3⟩ <;> simp [h3]

theorem WFC_fresh (seq : List String) : WFC seq (freshCycle seq) := by
  constructor
  · exact ⟨[], dget_freshCycle_last seq⟩
  · intro kv hkv hk
    unfold freshCycle at hkv
    rcases mem_dset hkv with h1 | h1
    · exact absurd (by rw [h1]) hk
    · left
      exact pyDict_const_val Slot.null seq kv h1

theorem WFC_dset_one (seq : List String) (c : Cycle) (ty : String) (e : Event)
    (hty : ty ≠ lastName seq) (h : WFC seq c) : WFC seq (dset c ty (Slot.one e)) := by
  rcases h with ⟨⟨es, h1⟩, h2⟩
  constructor
  · exact ⟨es, by rw [dget_dset_ne _ _ _ _ hty]; exact h1⟩
  · intro kv hkv hk
    rcases mem_dset hkv with h3 | h3
    · right
      exact ⟨e, by rw [h3]⟩
    · exact h2 kv h3 hk

theorem WFC_dset_many (seq : List String) (c : Cycle) (es : List Event)
    (h : WFC seq c) : WFC seq (dset c (lastName seq) (Slot.many es)) := by
  rcases h with ⟨⟨es0, h1⟩, h2⟩
  constructor
  · exact ⟨es, dget_dset_self _ _ _⟩
  · intro kv hkv hk
    rcases mem_dset hkv with h3 | h3
    · exact absurd (by rw [h3]) hk
    · exact h2 kv h3 hk

theorem WFC_step (seq : List String) (h2 : 2 ≤ seq.length)
    (hlast : seq.findIdx? (fun s => s == lastName seq) = some (seq.length - 1))
    (st : MState) (ev : Event) (h : WFC seq st.cycle) :
    WFC seq (stepEvent seq st ev).cycle := by
  rcases hidx : seq.findIdx? (fun s => s == ev.type) with _ | idx
  · simp only [stepEvent, hidx]
    exact h
  simp only [stepEvent, hidx]
  by_cases h0 : idx = 0
  · subst h0
    simp only [if_pos rfl]
    have hty : ev.type ≠ lastName seq := by
      intro hty
      rw [hty] at hidx
      rw [hidx] at hlast
      have : seq.length - 1 = 0 := by simpa using hlast.symm
      omega
    exact WFC_dset_one seq (freshCycle seq) ev.type ev hty (WFC_fresh seq)
  rw [if_neg h0]
  by_cases hst : idx = st.state
  · rw [if_pos hst]
    by_cases hl : idx = seq.length - 1
    · rw [if_pos hl]
      have hne : seq ≠ [] := by
        intro hnil
        rw [hnil] at h2
        simp at h2
      have hty : ev.type = lastName seq := by
        apply findIdx?_last_eq seq ev.type hne
        rw [← hl]
        exact hidx
      rcases h with ⟨⟨es, hes⟩, hrest⟩
      rw [hty, hes]
      exact WFC_dset_many seq st.cycle (es ++ [ev]) ⟨⟨es, hes⟩, hrest⟩
    · rw [if_neg hl]
      have hty : ev.type ≠ lastName seq := by
        intro hty
        rw [hty] at hidx
        rw [hidx] at hlast
        have : idx = seq.length - 1 := by simpa using hlast
        exact hl this
      exact WFC_dset_one seq st.cycle ev.type ev hty h
  · rw [if_neg hst]
    exact h

/-- C8 (amended): for an event sequence of length at least 2 whose
repeating (last) stage name first occurs at the last position, at every
point of the event loop the in-progress cycle keeps a list in the
repeating stage and None or a single event in every other stage.  (The
claim as stated also covers length-one sequences, where the first event
overwrites the list; see the counterexample.) -/
theorem c8_repeating_stage_invariant (seq : List String) (evs : List Event)
    (h2 : 2 ≤ seq.length)
    (hlast : seq.findIdx? (fun s => s == lastName seq) = some (seq.length - 1)) :
    wellFormedCycle seq (runMachine seq evs).cycle = true := by
  apply WFC_bool
  unfold runMachine
  have base : WFC seq (initState seq).cycle := WFC_fresh seq
  exact foldl_pres (stepEvent seq) (fun st => WFC seq st.cycle) evs (initState seq) base
    (fun st a _ hst => WFC_step seq h2 hlast st a hst)

/-- Witness for C8 on the test-suite sequence and events. -/
theorem c8_witness :
    wellFormedCycle ["init", "execute"]
      (runMachine ["init", "execute"] [eInit, eExec]).cycle = true :=
  c8_repeating_stage_invariant ["init", "execute"] [eInit, eExec] (by norm_num) (by rfl)

/-- C8 counterexample: for the length-one sequence ["boot"], after one boot
event the repeating (only) stage of the in-progress cycle holds a single
event, not a list, contradicting the claim for length-one sequences. -/
theorem c8_counterexample :
    dget (runMachine ["boot"] [eBoot]).cycle (lastName ["boot"]) = some (Slot.one eBoot) ∧
    ¬ ∃ es, dget (runMachine ["boot"] [eBoot]).cycle (lastName ["boot"]) =
      some (Slot.many es) := by
  have h0 : dget (runMachine ["boot"] [eBoot]).cycle (lastName ["boot"]) =
      some (Slot.one eBoot) := by rfl
  refine ⟨h0, ?_⟩
  intro ⟨es, h⟩
  rw [h0] at h
  simp at h

theorem InvC3_init (seq : List String) (h2 : 2 ≤ seq.length) : InvC3 seq (initState seq) := by
  refine ⟨by simp [initState], ?_, ?_⟩
  · intro heq
    exfalso
    have : (initState seq).state = 0 := rfl
    omega
  · intro hpos
    exfalso
    have : (initState seq).state = 0 := rfl
    omega

theorem InvC3_step (seq : List String) (h2 : 2 ≤ seq.length) (st : MState) (ev : Event)
    (h : InvC3 seq st) : InvC3 seq (stepEvent seq st ev) := by
  rcases h with ⟨hfin, hdone, hmid⟩
  rcases hidx : seq.findIdx? (fun s => s == ev.type) with _ | idx
  · simp only [stepEvent, hidx]
    exact ⟨hfin, hdone, hmid⟩
  simp only [stepEvent, hidx]
  by_cases h0 : idx = 0
  · subst h0
    rw [if_pos rfl]
    refine ⟨?_, ?_, ?_⟩
    · intro cf hcf
      by_cases hflush : st.state = seq.length
      · rw [if_pos hflush] at hcf
        rcases List.mem_append.mp hcf with h1 | h1
        · exact hfin cf h1
        · have : cf = (st.cycle, st.files) := by simpa using h1
          rw [this]
          exact hdone hflush
      · rw [if_neg hflush] at hcf
        exact hfin cf hcf
    · intro heq
      simp only at heq
      omega
    · intro _ hlt
      simp only at hlt ⊢
      by_cases hty : ev.type = lastName seq
      · right
        constructor
        · exact ⟨ev, by rw [hty] at hidx ⊢; rw [dget_dset]; simp⟩
        · rw [hty] at hidx
          rw [hidx]
          intro hc
          have : 0 = seq.length - 1 := by simpa using hc
          omega
      · left
        rw [dget_dset_ne _ _ _ _ hty]
        exact dget_freshCycle_last seq
  rw [if_neg h0]
  by_cases hst : idx = st.state
  · rw [if_pos hst]
    have hstpos : 0 < st.state := by omega
    have hidxlt : idx < seq.length := (findIdx?_spec _ _ _ hidx).1
    have hne : seq ≠ [] := by
      intro hnil
      rw [hnil] at h2
      simp at h2
    by_cases hl : idx = seq.length - 1
    · rw [if_pos hl]
      have hty : ev.type = lastName seq := by
        apply findIdx?_last_eq seq ev.type hne
        rw [← hl]
        exact hidx
      have hmid2 := hmid hstpos (by omega)
      rcases hmid2 with hempty | ⟨⟨e, hone⟩, hnot⟩
      · rw [hty, hempty]
        refine ⟨hfin, ?_, ?_⟩
        · intro _
          exact ⟨ev, by rw [dget_dset]; simp⟩
        · intro _ hlt
          simp only at hlt
          omega
      · exfalso
        apply hnot
        rw [← hty, hidx, hl]
    · rw [if_neg hl]
      refine ⟨hfin, ?_, ?_⟩
      · intro heq
        simp only at heq
        omega
      · intro _ _
        by_cases hty : ev.type = lastName seq
        · right
          constructor
          · exact ⟨ev, by rw [hty] at hidx ⊢; rw [dget_dset]; simp⟩
          · rw [hty] at hidx
            rw [hidx]
            intro hc
            have : idx = seq.length - 1 := by simpa using hc
            exact hl this
        · rw [dget_dset_ne _ _ _ _ hty]
          exact hmid hstpos (by omega)
  · rw [if_neg hst]
    refine ⟨hfin, ?_, ?_⟩
    · intro heq
      simp only at heq
      omega
    · intro hpos _
      simp only at hpos
      omega

/-- C3: with an event sequence of length at least 2, every cycle the state
machine finalizes holds exactly one repeating-stage event, and every
record built from such a cycle has frames equal to 1. -/
theorem c3_finalized_cycle_single_frame (seq : List String) (evs : List Event)
    (h2 : 2 ≤ seq.length) (c : Cycle) (fs : List String)
    (hmem : (c, fs) ∈ analyzeEvents seq evs) :
    (∃ e, dget c (lastName seq) = some (Slot.many [e])) ∧
    (∀ cfg : Config, cfg.seq = seq → ∀ files2 rec,
      buildRecord cfg c files2 = Except.ok rec →
      dget rec "frames" = some (RValue.int 1)) := by
  have hone : ∃ e, dget c (lastName seq) = some (Slot.many [e]) := by
    unfold analyzeEvents at hmem
    by_cases hemp : evs.isEmpty
    · rw [if_pos hemp] at hmem
      simp at hmem
    rw [if_neg hemp] at hmem
    have hinv : InvC3 seq (runMachine seq evs) := by
      unfold runMachine
      exact foldl_pres (stepEvent seq) (InvC3 seq) evs (initState seq)
        (InvC3_init seq h2) (fun st a _ hst => InvC3_step seq h2 st a hst)
    rcases hinv with ⟨hfin, hdone, _⟩
    by_cases hflush : (runMachine seq evs).state = seq.length
    · rw [if_pos hflush] at hmem
      rcases List.mem_append.mp hmem with h1 | h1
      · exact hfin (c, fs) h1
      · have : (c, fs) = ((runMachine seq evs).cycle, (runMachine seq evs).files) := by
          simpa using h1
        have hc : c = (runMachine seq evs).cycle := congrArg Prod.fst this
        rw [hc]
        exact hdone hflush
    · rw [if_neg hflush] at hmem
      exact hfin (c, fs) hmem
  refine ⟨hone, ?_⟩
  intro cfg hcfg files2 rec hok
  rcases hone with ⟨e, he⟩
  have hlast : dget c (lastName cfg.seq) = some (Slot.many [e]) := by
    rw [hcfg]
    exact he
  have := (buildRecord_fields cfg c files2 [e] rec hlast hok).1
  simpa using this

/-- Witness for C3: the record of the single finalized test cycle has
frames equal to 1. -/
theorem c3_witness : dget rec0 "frames" = some (RValue.int 1) := by
  have hmem : (cyc0, ["f.log"]) ∈ analyzeEvents ["init", "execute"] [eInit, eExec] := by
    rw [show analyzeEvents ["init", "execute"] [eInit, eExec] = [(cyc0, ["f.log"])] from rfl]
    simp
  exact (c3_finalized_cycle_single_frame ["init", "execute"] [eInit, eExec] (by norm_num)
    cyc0 ["f.log"] hmem).2 cfg0 rfl ["f.log"] rec0 buildRecord_cfg0_eq

theorem mem_cycleEvents (c : Cycle) (e : Event) :
    e ∈ cycleEvents c ↔ ∃ kv ∈ c, e ∈ slotEvents kv.2 := by
  induction c with
  | nil => simp [cycleEvents]
  | cons kv c ih =>
      unfold cycleEvents at ih ⊢
      simp [List.foldr_cons, ih]

theorem cycleEvents_dset_one (c : Cycle) (ty : String) (a e : Event)
    (h : e ∈ cycleEvents (dset c ty (Slot.one a))) :
    e = a ∨ e ∈ cycleEvents c := by
  rcases (mem_cycleEvents _ e).mp h with ⟨kv, hkv, hesl⟩
  rcases mem_dset hkv with h1 | h1
  · left
    rw [h1] at hesl
    simpa [slotEvents] using hesl
  · right
    exact (mem_cycleEvents _ e).mpr ⟨kv, h1, hesl⟩

theorem cycleEvents_fresh (seq : List String) (e : Event)
    (h : e ∈ cycleEvents (freshCycle seq)) : False := by
  rcases (mem_cycleEvents _ e).mp h with ⟨kv, hkv, hesl⟩
  unfold freshCycle at hkv
  rcases mem_dset hkv with h1 | h1
  · rw [h1] at hesl
    simp [slotEvents] at hesl
  · have := pyDict_const_val Slot.null seq kv h1
    rw [this] at hesl
    simp [slotEvents] at hesl

/-- Once the stage index is 0, every cycle finalized later is assembled
only from later input events (the U-closure lemma behind C7). -/
theorem fin_events_from_input (seq : List String) (U : Event → Prop)
    (hseq : 1 ≤ seq.length) :
    ∀ (evs : List Event) (st : MState),
      (∀ e ∈ evs, U e) →
      (st.state = 0 ∨ ∀ e ∈ cycleEvents st.cycle, U e) →
      ∀ cf ∈ (List.foldl (stepEvent seq) st evs).fin,
        cf ∈ st.fin ∨ ∀ e ∈ cycleEvents cf.1, U e := by
  intro evs
  induction evs with
  | nil =>
      intro st hU hst cf hcf
      left
      simpa using hcf
  | cons a evs ih =>
      intro st hU hst cf hcf
      rw [List.foldl_cons] at hcf
      have hUa : U a := hU a (by simp)
      have hUevs : ∀ e ∈ evs, U e := fun e he => hU e (by simp [he])
      have hA : (stepEvent seq st a).state = 0 ∨
          ∀ e ∈ cycleEvents (stepEvent seq st a).cycle, U e := by
        rcases hidx : seq.findIdx? (fun s => s == a.type) with _ | idx
        · simpa only [stepEvent, hidx] using hst
        simp only [stepEvent, hidx]
        by_cases h0 : idx = 0
        · subst h0
          rw [if_pos rfl]
          right
          intro e he
          simp only at he
          rcases cycleEvents_dset_one _ _ _ _ he with h1 | h1
          · rw [h1]; exact hUa
          · exact absurd h1 (cycleEvents_fresh seq e)
        rw [if_neg h0]
        by_cases hes : idx = st.state
        · rw [if_pos hes]
          have hst2 : ∀ e ∈ cycleEvents st.cycle, U e := by
            rcases hst with h1 | h1
            · exfalso; omega
            · exact h1
          right
          intro e he
          simp only at he
          by_cases hl : idx = seq.length - 1
          · rw [if_pos hl] at he
            rcases hget : dget st.cycle a.type with _ | sl
            · rw [hget] at he
              exact hst2 e he
            rcases sl with _ | e2 | es2
            · rw [hget] at he
              exact hst2 e he
            · rw [hget] at he
              exact hst2 e he
            · rw [hget] at he
              rcases (mem_cycleEvents _ e).mp he with ⟨kv, hkv, hesl⟩
              rcases mem_dset hkv with h1 | h1
              · rw [h1] at hesl
                simp only [slotEvents] at hesl
                rcases List.mem_append.mp hesl with h2 | h2
                · apply hst2
                  refine (mem_cycleEvents _ e).mpr ⟨(a.type, Slot.many es2), mem_of_dget hget, ?_⟩
                  simpa [slotEvents] using h2
                · have h3 : e = a := by simpa using h2
                  rw [h3]
                  exact hUa
              · exact hst2 e ((mem_cycleEvents _ e).mpr ⟨kv, h1, hesl⟩)
          · rw [if_neg hl] at he
            rcases cycleEvents_dset_one _ _ _ _ he with h1 | h1
            · rw [h1]; exact hUa
            · exact hst2 e h1
        · rw [if_neg hes]
          left
          rfl
      have hB : ∀ cf2 ∈ (stepEvent seq st a).fin,
          cf2 ∈ st.fin ∨ ∀ e ∈ cycleEvents cf2.1, U e := by
        intro cf2 hcf2
        rcases hidx : seq.findIdx? (fun s => s == a.type) with _ | idx
        · rw [show (stepEvent seq st a).fin = st.fin by simp only [stepEvent, hidx]] at hcf2
          exact Or.inl hcf2
        by_cases h0 : idx = 0
        · subst h0
          have hfin : (stepEvent seq st a).fin =
              if st.state = seq.length then st.fin ++ [(st.cycle, st.files)] else st.fin := by
            simp [stepEvent, hidx]
          rw [hfin] at hcf2
          by_cases hflush : st.state = seq.length
          · rw [if_pos hflush] at hcf2
            rcases List.mem_append.mp hcf2 with h1 | h1
            · exact Or.inl h1
            · have hcf2eq : cf2 = (st.cycle, st.files) := by simpa using h1
              right
              rw [hcf2eq]
              rcases hst with h2 | h2
              · exfalso; omega
              · exact h2
          · rw [if_neg hflush] at hcf2
            exact Or.inl hcf2
        · have hfin : (stepEvent seq st a).fin = st.fin := by
            simp only [stepEvent, hidx]
            rw [if_neg h0]
            by_cases hes : idx = st.state
            · rw [if_pos hes]
            · rw [if_neg hes]
          rw [hfin] at hcf2
          exact Or.inl hcf2
      rcases ih (stepEvent seq st a) hUevs hA cf hcf with h1 | h1
      · exact hB cf h1
      · exact Or.inr h1

/-- C7: an event whose type is neither the first stage nor the expected
stage only resets the stage index to 0 (cycle, files and finalized list
untouched), and every cycle finalized afterwards is assembled exclusively
from later input events, so neither the anomalous event nor anything
stored in the discarded cycle reaches a finalized cycle. -/
theorem c7_out_of_order_resets_and_discards (seq : List String) (st : MState) (ev : Event)
    (idx : ℕ) (hidx : seq.findIdx? (fun s => s == ev.type) = some idx)
    (h0 : idx ≠ 0) (hst : idx ≠ st.state) :
    stepEvent seq st ev = { st with state := 0 } ∧
    ∀ evs : List Event, ∀ cf ∈ (List.foldl (stepEvent seq) (stepEvent seq st ev) evs).fin,
      cf ∈ st.fin ∨ ∀ e ∈ cycleEvents cf.1, e ∈ evs := by
  have hreset : stepEvent seq st ev = { st with state := 0 } := by
    simp only [stepEvent, hidx]
    rw [if_neg h0, if_neg hst]
  refine ⟨hreset, ?_⟩
  intro evs cf hcf
  rw [hreset] at hcf
  have hseq : 1 ≤ seq.length := by
    rcases findIdx?_spec _ _ _ hidx with ⟨hlt, _⟩
    omega
  have h := fin_events_from_input seq (fun e => e ∈ evs) hseq evs { st with state := 0 }
    (fun e he => he) (Or.inl rfl) cf hcf
  simpa using h

/-- Witness for C7: an execute event in state 1 of a three-stage sequence
resets the machine. -/
theorem c7_witness :
    stepEvent ["init", "mid", "execute"]
      (stepEvent ["init", "mid", "execute"] (initState ["init", "mid", "execute"]) eInit)
      eExec3 =
    { stepEvent ["init", "mid", "execute"] (initState ["init", "mid", "execute"]) eInit
      with state := 0 } :=
  (c7_out_of_order_resets_and_discards ["init", "mid", "execute"]
    (stepEvent ["init", "mid", "execute"] (initState ["init", "mid", "execute"]) eInit)
    eExec3 2 (by rfl) (by norm_num) (by decide)).1

/-- C2 counterexample: the test pipeline finalizes a cycle with exactly one
repeating-stage event, and its record carries Duration(s) = 0.0 — present
and non-null — where the claim requires null/absent for one event. -/
theorem c2_counterexample :
    analyzeEvents cfg0.seq [eInit, eExec] = [(cyc0, ["f.log"])] ∧
    dget cyc0 (lastName cfg0.seq) = some (Slot.many [eExec]) ∧
    buildRecord cfg0 cyc0 ["f.log"] = Except.ok rec0 ∧
    dget rec0 "Duration(s)" = some (RValue.float (PyFloat.fin 0)) :=
  ⟨by rfl, by rfl, buildRecord_cfg0_eq, by rfl⟩

/-- C2 (amended): Duration(s) is absent exactly when the cycle has zero
repeating-stage events; with one or more events it is present and equals
the elapsed seconds between the first and last repeating-stage timestamps
rounded to 3 places (0.0 for a single event).  The non-collision
hypotheses keep configured query/technique field names from shadowing the
Duration(s) column. -/
theorem c2_duration_zero_or_elapsed (cfg : Config) (cycle : Cycle) (files : List String)
    (es : List Event) (rec : Record)
    (hok : buildRecord cfg cycle files = Except.ok rec)
    (hlast : dget cycle (lastName cfg.seq) = some (Slot.many es))
    (hq : "Duration(s)" ∉ pcFields cfg "query")
    (ht : "Duration(s)" ∉ pcFields cfg "technique") :
    (es = [] → dget rec "Duration(s)" = none) ∧
    (∀ e0 rest, es = e0 :: rest →
      dget rec "Duration(s)" =
        some (RValue.float (PyFloat.fin (round3 ((es.getLastD e0).time - e0.time))))) := by
  have h := buildRecord_fields cfg cycle files es rec hlast hok
  exact ⟨fun hes => h.2.2.1 hes hq ht, h.2.1⟩

/-- Witness for C2 on the single-event test cycle: Duration(s) is 0.0. -/
theorem c2_witness : dget rec0 "Duration(s)" = some (RValue.float (PyFloat.fin 0)) := by
  have h := (c2_duration_zero_or_elapsed cfg0 cyc0 ["f.log"] [eExec] rec0
    buildRecord_cfg0_eq (by rfl) (by decide) (by decide)).2 eExec [] rfl
  rw [dur_cfg0] at h
  exact h

theorem avgValue_noVal : avgValue cfg0 [eExecNoVal] "Value" = RValue.float (PyFloat.fin 0) := by
  unfold avgValue timingValues
  simp [cfg0, eExecNoVal, dget, List.find?, PyFloat.sumL, PyFloat.add,
        PyFloat.divN, PyFloat.round2f]
  norm_num [round2, rhe]

theorem dur_noVal : round3 (([eExecNoVal].getLastD eExecNoVal).time - eExecNoVal.time) = 0 := by
  norm_num [eExecNoVal, round3, rhe]

theorem buildRecord_noVal_eq : buildRecord cfg0 cycNoVal ["f.log"] = Except.ok recNoVal := by
  have h1 : startTimeE cfg0 cycNoVal = Except.ok "NA" := by rfl
  have h4 : timingEventsE cfg0 cycNoVal = Except.ok [eExecNoVal] := by rfl
  unfold buildRecord
  simp only [h1, h4]
  have h2 : mergeStage cfg0 cycNoVal "query"
      [("SourceFiles", RValue.str (String.intercalate "+" (sortStrings ["f.log"]))),
       ("StartTime", RValue.str "NA")] =
      Except.ok [("SourceFiles", RValue.str "f.log"), ("StartTime", RValue.str "NA")] := by rfl
  simp only [h2]
  have h3 : mergeStage cfg0 cycNoVal "technique"
      [("SourceFiles", RValue.str "f.log"), ("StartTime", RValue.str "NA")] =
      Except.ok [("SourceFiles", RValue.str "f.log"), ("StartTime", RValue.str "NA")] := by rfl
  simp only [h3]
  unfold avgLoop
  simp only [cfg0, lastName]
  show Except.ok (addDuration [eExecNoVal]
    (dset (List.foldl (fun r field => dset r ("Avg" ++ field) (avgValue cfg0 [eExecNoVal] field))
      [("SourceFiles", RValue.str "f.log"), ("StartTime", RValue.str "NA")]
      (pcFields cfg0 "execute"))
      "frames" (RValue.int 1))) = Except.ok recNoVal
  have h5 : pcFields cfg0 "execute" = ["Value"] := by rfl
  rw [h5]
  simp only [List.foldl_cons, List.foldl_nil, avgValue_noVal]
  simp only [addDuration]
  rw [dur_noVal]
  rfl

/-- C4 counterexample: the repeating event of the finalized cycle has no
Value field at all, yet AvgValue is 0.0 instead of the claimed null/absent:
the missing field contributed float(0) through the e.get(field, 0)
default. -/
theorem c4_counterexample :
    dget eExecNoVal.fields "Value" = none ∧
    analyzeEvents cfg0.seq [eInit, eExecNoVal] = [(cycNoVal, ["f.log"])] ∧
    buildRecord cfg0 cycNoVal ["f.log"] = Except.ok recNoVal ∧
    dget recNoVal "AvgValue" = some (RValue.float (PyFloat.fin 0)) :=
  ⟨by rfl, by rfl, buildRecord_noVal_eq, by rfl⟩

/-- C4 (amended): Avg of a repeating-stage field is formed from the values
of timingValues — a field absent from an event contributes float(0) = 0.0
(treated as zero), a present value failing float conversion is skipped —
and the stored value is the mean rounded to 2 places, or None when the
value list is empty. -/
theorem c4_average_semantics (cfg : Config) (cycle : Cycle) (files : List String)
    (es : List Event) (rec : Record) (field : String)
    (hok : buildRecord cfg cycle files = Except.ok rec)
    (hlast : dget cycle (lastName cfg.seq) = some (Slot.many es))
    (hf : field ∈ pcFields cfg (lastName cfg.seq))
    (hnd : (pcFields cfg (lastName cfg.seq)).Nodup) :
    dget rec ("Avg" ++ field) = some (avgValue cfg es field) ∧
    timingValues cfg es field = es.filterMap (fun e =>
      match dget e.fields field with
      | none => some (PyFloat.fin 0)
      | some s => cfg.floatConv s) := by
  refine ⟨?_, rfl⟩
  exact (buildRecord_fields cfg cycle files es rec hlast hok).2.2.2 field hf hnd

/-- Witness for C4 on the test cycle: AvgValue is 100.0. -/
theorem c4_witness : dget rec0 "AvgValue" = some (RValue.float (PyFloat.fin 100)) := by
  have h := (c4_average_semantics cfg0 cyc0 ["f.log"] [eExec] rec0 "Value"
    buildRecord_cfg0_eq (by rfl) (by decide) (by decide)).1
  rw [avgValue_cfg0] at h
  exact h

theorem dur_nan : round3 (([eExecNan].getLastD eExecNan).time - eExecNan.time) = 0 := by
  norm_num [eExecNan, round3, rhe]

theorem buildRecord_nan_eq : buildRecord cfg0 cycNan ["f.log"] = Except.ok recNan := by
  have h1 : startTimeE cfg0 cycNan = Except.ok "NA" := by rfl
  have h4 : timingEventsE cfg0 cycNan = Except.ok [eExecNan] := by rfl
  unfold buildRecord
  simp only [h1, h4]
  have h2 : mergeStage cfg0 cycNan "query"
      [("SourceFiles", RValue.str (String.intercalate "+" (sortStrings ["f.log"]))),
       ("StartTime", RValue.str "NA")] =
      Except.ok [("SourceFiles", RValue.str "f.log"), ("StartTime", RValue.str "NA")] := by rfl
  simp only [h2]
  have h3 : mergeStage cfg0 cycNan "technique"
      [("SourceFiles", RValue.str "f.log"), ("StartTime", RValue.str "NA")] =
      Except.ok [("SourceFiles", RValue.str "f.log"), ("StartTime", RValue.str "NA")] := by rfl
  simp only [h3]
  unfold avgLoop
  simp only [cfg0, lastName]
  show Except.ok (addDuration [eExecNan]
    (dset (List.foldl (fun r field => dset r ("Avg" ++ field) (avgValue cfg0 [eExecNan] field))
      [("SourceFiles", RValue.str "f.log"), ("StartTime", RValue.str "NA")]
      (pcFields cfg0 "execute"))
      "frames" (RValue.int 1))) = Except.ok recNan
  have h5 : pcFields cfg0 "execute" = ["Value"] := by rfl
  rw [h5]
  simp only [List.foldl_cons, List.foldl_nil]
  have h6 : avgValue cfg0 [eExecNan] "Value" = RValue.float PyFloat.nan := by rfl
  rw [h6]
  simp only [addDuration]
  rw [dur_nan]
  rfl

/-- C5 counterexample: a record whose AvgValue is NaN fails validation and
is dropped, but the cycle-error counter stays 0 — only the exception path
increments it, contrary to the claim. -/
theorem c5_counterexample :
    buildRecord cfg0 cycNan ["f.log"] = Except.ok recNan ∧
    validateRecord recNan = false ∧
    finalizeCycle cfg0 ⟨[], 0, 0⟩ cycNan ["f.log"] = ⟨[], 0, 0⟩ := by
  refine ⟨buildRecord_nan_eq, by rfl, ?_⟩
  unfold finalizeCycle
  rw [buildRecord_nan_eq]
  rfl

/-- C5 (amended): a built record failing validation is dropped without
touching any counter; an exception while building increments cycle_errors
and drops the cycle; a validated record is appended and counted in
cycles_completed. -/
theorem c5_finalize_paths (cfg : Config) (m : Metrics) (cycle : Cycle)
    (files : List String) :
    (∀ rec, buildRecord cfg cycle files = Except.ok rec → validateRecord rec = false →
      finalizeCycle cfg m cycle files = m) ∧
    (∀ err, buildRecord cfg cycle files = Except.error err →
      finalizeCycle cfg m cycle files = { m with cycle_errors := m.cycle_errors + 1 }) ∧
    (∀ rec, buildRecord cfg cycle files = Except.ok rec → validateRecord rec = true →
      finalizeCycle cfg m cycle files =
        { m with results := m.results ++ [rec],
                 cycles_completed := m.cycles_completed + 1 }) := by
  refine ⟨?_, ?_, ?_⟩
  · intro rec hok hval
    unfold finalizeCycle
    simp only [hok]
    rw [hval]
    simp
  · intro err herr
    unfold finalizeCycle
    simp only [herr]
  · intro rec hok hval
    unfold finalizeCycle
    simp only [hok]
    rw [hval]
    simp

/-- Witness for C5 on the exception path: a repeating slot holding a single
event dict makes build_record raise and cycle_errors increment. -/
theorem c5_witness :
    finalizeCycle cfg0 ⟨[], 0, 0⟩ cycBad ["f.log"] =
      { results := [], cycles_completed := 0, cycle_errors := 1 } :=
  (c5_finalize_paths cfg0 ⟨[], 0, 0⟩ cycBad ["f.log"]).2.1 () (by rfl)

end LogToCsv
